import Mathlib

/-!
# Paymaster co-signature: hashing and signing of a user operation

A shallow embedding of the Go package `signer` (`user_operation.go`,
`signer.go`).  Bytes are natural numbers below 256, byte strings are lists,
`*big.Int` values are natural numbers (the fields are unsigned quantities).

The package calls four entry points of go-ethereum:

* `crypto.Keccak256Hash`, a parameter `K : List Nat → Hash` of the definitions;
* `abi.Arguments.Pack`, a parameter `pack` of `PaymasterHash`; its go-ethereum
  behaviour on the static types used here is the definition `Arguments.Pack`;
* `accounts.TextHash` and `common.BytesToHash`, defined below;
* `crypto.Sign`, a parameter `Sign` of `PrivateKeySigner.SignHash`.
-/

namespace Paymaster

/-! ## Data model -/

/-- Go `error` values, identified by their message. -/
abbrev Error := String

deriving instance DecidableEq for Except

/-- `common.Address`: an array of 20 bytes. -/
structure Address where
  bytes : List Nat
  size_eq : bytes.length = 20
deriving DecidableEq

/-- `common.Hash`: an array of 32 bytes. -/
structure Hash where
  bytes : List Nat
  size_eq : bytes.length = 32
deriving DecidableEq

/-- The zero value `common.Hash{}`. -/
def Hash.zero : Hash := ⟨List.replicate 32 0, by simp⟩

/-- `UserOperation` of `user_operation.go`. -/
structure UserOperation where
  Sender : Address
  Nonce : Nat
  InitCode : List Nat
  CallData : List Nat
  CallGasLimit : Nat
  VerificationGasLimit : Nat
  PreVerificationGas : Nat
  MaxFeePerGas : Nat
  MaxPriorityFeePerGas : Nat
  PaymasterAndData : List Nat
  Signature : List Nat
deriving DecidableEq

/-! ## go-ethereum: byte helpers (`common`, `common/math`) -/

/-- `common.LeftPadBytes`: zero-pads `slice` on the left up to length `l`. -/
def LeftPadBytes (slice : List Nat) (l : Nat) : List Nat :=
  if l ≤ slice.length then slice else List.replicate (l - slice.length) 0 ++ slice

/-- `common.RightPadBytes`: zero-pads `slice` on the right up to length `l`. -/
def RightPadBytes (slice : List Nat) (l : Nat) : List Nat :=
  if l ≤ slice.length then slice else slice ++ List.replicate (l - slice.length) 0

/-- `common.BytesToHash`: keeps the last 32 bytes of `b` when it is longer, and
zero-pads it on the left when it is shorter. -/
def BytesToHash (b : List Nat) : Hash :=
  ⟨List.replicate (32 - b.length) 0 ++ b.drop (b.length - 32), by
    simp only [List.length_append, List.length_replicate, List.length_drop]; omega⟩

/-- `math.U256`: `x.And(x, tt256m1)`. -/
def U256 (x : Nat) : Nat := x &&& (2 ^ 256 - 1)

/-- Number of binary digits of `x`, counted with at most `fuel` halvings. -/
def bitLenAux : Nat → Nat → Nat
  | 0, _ => 0
  | fuel + 1, x => if x = 0 then 0 else bitLenAux fuel (x / 2) + 1

/-- `big.Int.BitLen`: the length of `x` in bits, `0` for `0`. -/
def BitLen (x : Nat) : Nat := bitLenAux x x

/-- `math.ReadBits`: the `n` low-order bytes of `x`, most significant first. -/
def ReadBits (x : Nat) : Nat → List Nat
  | 0 => []
  | n + 1 => ReadBits (x / 256) n ++ [x % 256]

/-- `big.Int.Bytes`: the big-endian bytes of `x` without leading zeros. -/
def BigBytes (x : Nat) : List Nat := ReadBits x ((BitLen x + 7) / 8)

/-- `math.PaddedBigBytes`. -/
def PaddedBigBytes (bigint : Nat) (n : Nat) : List Nat :=
  if BitLen bigint / 8 ≥ n then BigBytes bigint else ReadBits bigint n

/-- `math.U256Bytes`. -/
def U256Bytes (n : Nat) : List Nat := PaddedBigBytes (U256 n) 32

/-! ## go-ethereum: `accounts/abi` packing of static values -/

/-- The ABI types that `abi.NewType` builds for `"address"`, `"uintN"` and
`"bytesN"`. -/
inductive AbiType where
  | AddressTy
  | UintTy (size : Nat)
  | FixedBytesTy (size : Nat)
deriving DecidableEq

/-- `abi.Argument`. -/
structure Argument where
  Name : String
  Typ : AbiType
deriving DecidableEq

/-- The Go values handed to `Pack` by this package. -/
inductive Value where
  | address (a : Address)
  | bigInt (x : Nat)
  | hash (h : Hash)
deriving DecidableEq

/-- The `reflect.Kind`s that occur. -/
inductive Kind where
  | Array
  | Ptr
  | Uint8
  | Uint16
  | Uint32
  | Uint64
deriving DecidableEq

/-- Kind of `t.GetType()`: `uint8`..`uint64` are Go machine integers, every
other integer width is a `*big.Int`. -/
def AbiType.kind : AbiType → Kind
  | .AddressTy => .Array
  | .FixedBytesTy _ => .Array
  | .UintTy size =>
    if size = 8 then .Uint8
    else if size = 16 then .Uint16
    else if size = 32 then .Uint32
    else if size = 64 then .Uint64
    else .Ptr

/-- Kind of a value. -/
def Value.kind : Value → Kind
  | .address _ => .Array
  | .bigInt _ => .Ptr
  | .hash _ => .Array

/-- Bytes of an array value. -/
def Value.arrayBytes : Value → List Nat
  | .address a => a.bytes
  | .hash h => h.bytes
  | .bigInt _ => []

/-- `abi.typeCheck` for the non-slice types: the kinds must agree, and a
`bytesN` needs an array of `N` bytes. -/
def typeCheck (t : AbiType) (v : Value) : Option Error :=
  if t.kind ≠ v.kind then some "abi: cannot use value as type"
  else match t with
    | .FixedBytesTy size =>
      if size ≠ v.arrayBytes.length then some "abi: cannot use value as type" else none
    | _ => none

/-- `abi.packElement`, reached after `typeCheck`: integers go through
`packNum`, that is `math.U256Bytes`, whatever the declared width. -/
def packElement (t : AbiType) (v : Value) : Except Error (List Nat) :=
  match t, v with
  | .UintTy _, .bigInt x => .ok (U256Bytes x)
  | .UintTy _, _ => .error "abi: fatal error"
  | .AddressTy, v => .ok (LeftPadBytes v.arrayBytes 32)
  | .FixedBytesTy _, v => .ok (RightPadBytes v.arrayBytes 32)

/-- `abi.Type.pack`. -/
def AbiType.pack (t : AbiType) (v : Value) : Except Error (List Nat) :=
  match typeCheck t v with
  | some err => .error err
  | none => packElement t v

/-- The loop of `abi.Arguments.Pack`; no type here is dynamic, so every packed
element is appended to the head. -/
def packLoop : List Argument → List Value → List Nat → Except Error (List Nat)
  | a :: abiArgs, v :: args, ret =>
    match a.Typ.pack v with
    | .error err => .error err
    | .ok packed => packLoop abiArgs args (ret ++ packed)
  | _, _, ret => .ok ret

/-- `abi.Arguments.Pack`. -/
def Arguments.Pack (arguments : List Argument) (args : List Value) :
    Except Error (List Nat) :=
  if args.length ≠ arguments.length then .error "argument count mismatch"
  else packLoop arguments args []

/-! ## go-ethereum: `accounts.TextHash` -/

/-- Bytes of an ASCII string. -/
def asciiBytes (s : String) : List Nat := s.toList.map Char.toNat

/-- `accounts.TextHash`: Keccak256 of
`"\x19Ethereum Signed Message:\n" + len(data) + data`. -/
def TextHash (K : List Nat → Hash) (data : List Nat) : List Nat :=
  (K (asciiBytes "\x19Ethereum Signed Message:\n" ++ asciiBytes (Nat.repr data.length)
    ++ data)).bytes

/-! ## `user_operation.go` -/

/-- The argument list `args` of `PaymasterHash`. -/
def paymasterHashArgs : List Argument :=
  [ ⟨"sender", .AddressTy⟩,
    ⟨"nonce", .UintTy 256⟩,
    ⟨"hashInitCode", .FixedBytesTy 32⟩,
    ⟨"hashCallData", .FixedBytesTy 32⟩,
    ⟨"callGasLimit", .UintTy 256⟩,
    ⟨"verificationGasLimit", .UintTy 256⟩,
    ⟨"preVerificationGas", .UintTy 256⟩,
    ⟨"maxFeePerGas", .UintTy 256⟩,
    ⟨"maxPriorityFeePerGas", .UintTy 256⟩,
    ⟨"chainId", .UintTy 256⟩,
    ⟨"paymaster", .AddressTy⟩,
    ⟨"validUntil", .UintTy 48⟩,
    ⟨"validAfter", .UintTy 48⟩ ]

/-- The values handed to `args.Pack` by `PaymasterHash`. -/
def paymasterHashValues (K : List Nat → Hash) (op : UserOperation) (paymaster : Address)
    (chainID validUntil validAfter : Nat) : List Value :=
  [ .address op.Sender,
    .bigInt op.Nonce,
    .hash (K op.InitCode),
    .hash (K op.CallData),
    .bigInt op.CallGasLimit,
    .bigInt op.VerificationGasLimit,
    .bigInt op.PreVerificationGas,
    .bigInt op.MaxFeePerGas,
    .bigInt op.MaxPriorityFeePerGas,
    .bigInt chainID,
    .address paymaster,
    .bigInt validUntil,
    .bigInt validAfter ]

/-- `UserOperation.PaymasterHash`; `pack` is `args.Pack`. The Go result
`(common.Hash{}, err)` is `.error err`, and `(hash, nil)` is `.ok hash`. -/
def PaymasterHash (K : List Nat → Hash)
    (pack : List Argument → List Value → Except Error (List Nat))
    (op : UserOperation) (paymaster : Address) (chainID validUntil validAfter : Nat) :
    Except Error Hash :=
  match pack paymasterHashArgs (paymasterHashValues K op paymaster chainID validUntil validAfter) with
  | .error err => .error err
  | .ok packed => .ok (K packed)

/-- Outcome of a call of `SignHash`: the pair `([]byte, error)` it returns, or
`none` when the call panics. -/
abbrev SignResult := Option (List Nat × Option Error)

/-- The interface `Signer` of `signer.go`.  An implementation may keep state of
its own (a session, a counter, a source of randomness): `σ`. -/
structure Signer (σ : Type) where
  SignHash : σ → Hash → SignResult × σ

/-- `UserOperation.PaymasterSign`. The Go result `(nil, err)` is the pair
`([], some err)`; the signer is called in state `s`. -/
def PaymasterSign {σ : Type} (K : List Nat → Hash)
    (pack : List Argument → List Value → Except Error (List Nat))
    (op : UserOperation) (paymaster : Address) (chainID validUntil validAfter : Nat)
    (signer : Signer σ) (s : σ) : SignResult × σ :=
  match PaymasterHash K pack op paymaster chainID validUntil validAfter with
  | .error err => (some ([], some err), s)
  | .ok hash =>
    let h := BytesToHash (TextHash K hash.bytes)
    signer.SignHash s h

/-! ## `signer.go` -/

/-- `ecdsa.PrivateKey`: the secret scalar and the public point. -/
structure EcdsaPrivateKey where
  D : Nat
  X : Nat
  Y : Nat
deriving DecidableEq

/-- `PrivateKeySigner`. -/
structure PrivateKeySigner where
  PrivateKey : EcdsaPrivateKey
deriving DecidableEq

/-- `PrivateKeySigner.SignHash`.  `Sign` is `crypto.Sign`; `signature[64] += 27`
is byte arithmetic and panics on a slice shorter than 65 bytes. -/
def PrivateKeySigner.SignHash (Sign : List Nat → EcdsaPrivateKey → List Nat × Option Error)
    (s : PrivateKeySigner) (h : Hash) : SignResult :=
  match Sign h.bytes s.PrivateKey with
  | (signature, none) =>
    if 64 < signature.length then
      some (signature.set 64 ((signature.getD 64 0 + 27) % 256), none)
    else none
  | (signature, some err) => some (signature, some err)

/-- A `PrivateKeySigner` as a `Signer`: it keeps no state. -/
def PrivateKeySigner.toSigner (Sign : List Nat → EcdsaPrivateKey → List Nat × Option Error)
    (s : PrivateKeySigner) : Signer Unit :=
  ⟨fun u h => (s.SignHash Sign h, u)⟩

/-! ## The encoding as the specification words it -/

/-- A 32-byte slot holding an unsigned integer: byte `i` (from the left) is the
base-256 digit of weight `256 ^ (31 - i)`, so the number is big-endian and
zero-padded on the left. -/
def slotUint (x : Nat) : List Nat := (List.range 32).map (fun i => x / 256 ^ (31 - i) % 256)

/-- A 32-byte slot holding an address: 12 zero bytes, then the 20 bytes. -/
def slotAddress (a : Address) : List Nat := List.replicate 12 0 ++ a.bytes

/-- The thirteen slots in the declared order, without separators. -/
def canonicalEncoding (K : List Nat → Hash) (op : UserOperation) (paymaster : Address)
    (chainID validUntil validAfter : Nat) : List Nat :=
  slotAddress op.Sender ++ slotUint op.Nonce ++ (K op.InitCode).bytes ++ (K op.CallData).bytes
    ++ slotUint op.CallGasLimit ++ slotUint op.VerificationGasLimit
    ++ slotUint op.PreVerificationGas ++ slotUint op.MaxFeePerGas
    ++ slotUint op.MaxPriorityFeePerGas ++ slotUint chainID ++ slotAddress paymaster
    ++ slotUint validUntil ++ slotUint validAfter

/-- The operation with each of its integer fields reduced modulo `2 ^ 256`. -/
def UserOperation.reduced (op : UserOperation) : UserOperation :=
  { op with
    Nonce := op.Nonce % 2 ^ 256
    CallGasLimit := op.CallGasLimit % 2 ^ 256
    VerificationGasLimit := op.VerificationGasLimit % 2 ^ 256
    PreVerificationGas := op.PreVerificationGas % 2 ^ 256
    MaxFeePerGas := op.MaxFeePerGas % 2 ^ 256
    MaxPriorityFeePerGas := op.MaxPriorityFeePerGas % 2 ^ 256 }

/-- The 28 bytes of `"\x19Ethereum Signed Message:\n32"`: the byte `0x19`, the
text `Ethereum Signed Message:`, a newline, and the decimal length `32`. -/
def signedMessagePrefix : List Nat :=
  [0x19, 69, 116, 104, 101, 114, 101, 117, 109, 32, 83, 105, 103, 110, 101, 100, 32,
   77, 101, 115, 115, 97, 103, 101, 58, 10, 51, 50]

/-! ## Signers used to observe the calls -/

/-- A signer that records the digests it is given, in order, and signs nothing. -/
def recorder : Signer (List Hash) :=
  ⟨fun log h => (some ([], none), log ++ [h])⟩

/-- The signer `signer` with a counter of the calls of `SignHash`. -/
def Signer.counting {σ : Type} (signer : Signer σ) : Signer (σ × Nat) :=
  ⟨fun st h => ((signer.SignHash st.1 h).1, ((signer.SignHash st.1 h).2, st.2 + 1))⟩

/-! ## The encoded fields, for statements about exchanging two of them -/

/-- The inputs of one call of `PaymasterHash`. -/
structure HashInput where
  op : UserOperation
  paymaster : Address
  chainID : Nat
  validUntil : Nat
  validAfter : Nat
deriving DecidableEq

/-- The thirteen encoded fields, in the order of `args`. -/
inductive Field where
  | sender
  | nonce
  | initCode
  | callData
  | callGasLimit
  | verificationGasLimit
  | preVerificationGas
  | maxFeePerGas
  | maxPriorityFeePerGas
  | chainId
  | paymaster
  | validUntil
  | validAfter
deriving DecidableEq

/-- The declared types of the fields. -/
inductive FieldType where
  | address
  | uint256
  | bytes
  | uint48
deriving DecidableEq

/-- The value of a field. -/
inductive FieldValue where
  | address (a : Address)
  | uint (x : Nat)
  | bytes (b : List Nat)
deriving DecidableEq

/-- The fields in the order of `args`. -/
def Field.all : List Field :=
  [.sender, .nonce, .initCode, .callData, .callGasLimit, .verificationGasLimit,
   .preVerificationGas, .maxFeePerGas, .maxPriorityFeePerGas, .chainId, .paymaster,
   .validUntil, .validAfter]

/-- The declared type of each field. -/
def Field.type : Field → FieldType
  | .sender => .address
  | .paymaster => .address
  | .initCode => .bytes
  | .callData => .bytes
  | .validUntil => .uint48
  | .validAfter => .uint48
  | _ => .uint256

/-- Reads a field. -/
def HashInput.get (i : HashInput) : Field → FieldValue
  | .sender => .address i.op.Sender
  | .nonce => .uint i.op.Nonce
  | .initCode => .bytes i.op.InitCode
  | .callData => .bytes i.op.CallData
  | .callGasLimit => .uint i.op.CallGasLimit
  | .verificationGasLimit => .uint i.op.VerificationGasLimit
  | .preVerificationGas => .uint i.op.PreVerificationGas
  | .maxFeePerGas => .uint i.op.MaxFeePerGas
  | .maxPriorityFeePerGas => .uint i.op.MaxPriorityFeePerGas
  | .chainId => .uint i.chainID
  | .paymaster => .address i.paymaster
  | .validUntil => .uint i.validUntil
  | .validAfter => .uint i.validAfter

/-- Writes a field; a value of another kind leaves the input as it is. -/
def HashInput.set (i : HashInput) : Field → FieldValue → HashInput
  | .sender, .address a => { i with op := { i.op with Sender := a } }
  | .nonce, .uint x => { i with op := { i.op with Nonce := x } }
  | .initCode, .bytes b => { i with op := { i.op with InitCode := b } }
  | .callData, .bytes b => { i with op := { i.op with CallData := b } }
  | .callGasLimit, .uint x => { i with op := { i.op with CallGasLimit := x } }
  | .verificationGasLimit, .uint x => { i with op := { i.op with VerificationGasLimit := x } }
  | .preVerificationGas, .uint x => { i with op := { i.op with PreVerificationGas := x } }
  | .maxFeePerGas, .uint x => { i with op := { i.op with MaxFeePerGas := x } }
  | .maxPriorityFeePerGas, .uint x => { i with op := { i.op with MaxPriorityFeePerGas := x } }
  | .chainId, .uint x => { i with chainID := x }
  | .paymaster, .address a => { i with paymaster := a }
  | .validUntil, .uint x => { i with validUntil := x }
  | .validAfter, .uint x => { i with validAfter := x }
  | _, _ => i

/-- The input with the values of the fields `f` and `g` exchanged. -/
def HashInput.swap (i : HashInput) (f g : Field) : HashInput :=
  (i.set f (i.get g)).set g (i.get f)

/-- A value of the given declared type, within its width. -/
def FieldValue.inRange : FieldValue → FieldType → Prop
  | .address _, .address => True
  | .uint x, .uint256 => x < 2 ^ 256
  | .uint x, .uint48 => x < 2 ^ 48
  | .bytes _, .bytes => True
  | _, _ => False

/-- `PaymasterHash` of an input, over go-ethereum's packer. -/
def HashInput.hash (K : List Nat → Hash) (i : HashInput) : Except Error Hash :=
  PaymasterHash K Arguments.Pack i.op i.paymaster i.chainID i.validUntil i.validAfter

/-- The bytes `PaymasterHash` hashes: the result of `args.Pack`. -/
def HashInput.packed (K : List Nat → Hash) (i : HashInput) : Except Error (List Nat) :=
  Arguments.Pack paymasterHashArgs
    (paymasterHashValues K i.op i.paymaster i.chainID i.validUntil i.validAfter)

/-- The 32-byte slot go-ethereum packs for a value. -/
def slotOfValue (K : List Nat → Hash) : FieldValue → List Nat
  | .address a => slotAddress a
  | .uint x => slotUint (x % 2 ^ 256)
  | .bytes b => (K b).bytes

/-- Concatenation of the slots of a list of fields. -/
def concatSlots (slot : Field → List Nat) : List Field → List Nat
  | [] => []
  | f :: fs => slot f ++ concatSlots slot fs

/-- The hash function sends the two different byte strings `a` and `b` to one
digest. -/
def CollidesOn (K : List Nat → Hash) (a b : List Nat) : Prop := a ≠ b ∧ K a = K b

/-- The number a big-endian byte string stands for (`big.Int.SetBytes`). -/
def SetBytes (l : List Nat) : Nat := l.foldl (fun acc b => acc * 256 + b) 0

/-- A stand-in for Keccak256 on concrete inputs: a 256-bit polynomial checksum. -/
def toyK (d : List Nat) : Hash :=
  BytesToHash (ReadBits (d.foldl (fun acc b => (acc * 257 + b + 1) % 2 ^ 256) 7) 32)

/-- The address `0x00…01`. -/
def addr1 : Address := ⟨List.replicate 19 0 ++ [1], by decide⟩

/-- The address `0x00…02`. -/
def addr2 : Address := ⟨List.replicate 19 0 ++ [2], by decide⟩

/-- An operation from `addr1` with empty byte fields and zero integer fields. -/
def sampleOp : UserOperation :=
  { Sender := addr1, Nonce := 0, InitCode := [], CallData := [], CallGasLimit := 0,
    VerificationGasLimit := 0, PreVerificationGas := 0, MaxFeePerGas := 0,
    MaxPriorityFeePerGas := 0, PaymasterAndData := [], Signature := [] }

/-- A private key with secret scalar 1. -/
def sampleKey : EcdsaPrivateKey := { D := 1, X := 0, Y := 0 }

/-- A stand-in for `crypto.Sign` on concrete inputs, with its checks: the digest
must have 32 bytes and the secret scalar must not be zero; the result is 64
bytes followed by a recovery id in `{0, 1}`. -/
def toySign (digestHash : List Nat) (prv : EcdsaPrivateKey) : List Nat × Option Error :=
  if digestHash.length ≠ 32 then ([], some "hash is required to be exactly 32 bytes")
  else if prv.D = 0 then ([], some "invalid private key")
  else (digestHash ++ ReadBits prv.D 32 ++ [(digestHash.sum + prv.D) % 2], none)

/-- The operation of the end-to-end scenario: sender `0x00…01`, nonce 0, empty
`initCode` and `callData`, all gas and fee fields 0. The scenario leaves
`paymasterAndData` and `signature` open. -/
def scenarioOp (paymasterAndData signature : List Nat) : UserOperation :=
  { Sender := addr1, Nonce := 0, InitCode := [], CallData := [], CallGasLimit := 0,
    VerificationGasLimit := 0, PreVerificationGas := 0, MaxFeePerGas := 0,
    MaxPriorityFeePerGas := 0, PaymasterAndData := paymasterAndData, Signature := signature }

/-- The 416 bytes of the end-to-end scenario, slot by slot. -/
def scenarioEncoding (K : List Nat → Hash) : List Nat :=
  (List.replicate 31 0 ++ [1])
    ++ List.replicate 32 0
    ++ (K []).bytes
    ++ (K []).bytes
    ++ List.replicate 32 0
    ++ List.replicate 32 0
    ++ List.replicate 32 0
    ++ List.replicate 32 0
    ++ List.replicate 32 0
    ++ (List.replicate 31 0 ++ [1])
    ++ (List.replicate 31 0 ++ [2])
    ++ List.replicate 32 0
    ++ List.replicate 32 0

/-- A packer that always fails. -/
def failingPack : List Argument → List Value → Except Error (List Nat) :=
  fun _ _ => .error "abi: cannot pack"

/-! ## go-ethereum packing: lemmas -/

theorem U256_eq_mod (x : Nat) : U256 x = x % 2 ^ 256 := by
  unfold U256
  exact Nat.and_pow_two_sub_one_eq_mod x 256

theorem bitLenAux_le (fuel : Nat) : ∀ (x k : Nat), x < 2 ^ k → bitLenAux fuel x ≤ k := by
  induction fuel with
  | zero => intro x k _; simp [bitLenAux]
  | succ f ih =>
    intro x k hx
    unfold bitLenAux
    split
    · omega
    · rename_i hx0
      cases k with
      | zero => simp at hx; omega
      | succ k =>
        have : x / 2 < 2 ^ k := by
          rw [Nat.div_lt_iff_lt_mul (by decide)]
          rw [pow_succ] at hx; exact hx
        have := ih (x / 2) k this
        omega

theorem lt_two_pow_bitLenAux (fuel : Nat) :
    ∀ x, x ≤ fuel → x < 2 ^ bitLenAux fuel x := by
  induction fuel with
  | zero => intro x hx; simp [bitLenAux]; omega
  | succ f ih =>
    intro x hx
    unfold bitLenAux
    split
    · omega
    · have := ih (x / 2) (by omega)
      rw [pow_succ]
      omega

/-- `BitLen x` is the least `k` with `x < 2 ^ k` (together with `bitLenAux_le`):
the fuel never runs out. -/
theorem lt_two_pow_BitLen (x : Nat) : x < 2 ^ BitLen x :=
  lt_two_pow_bitLenAux x x (le_refl x)

theorem ReadBits_length (n : Nat) : ∀ x, (ReadBits x n).length = n := by
  induction n with
  | zero => intro x; rfl
  | succ n ih => intro x; simp [ReadBits, ih]

theorem PaddedBigBytes_eq (y n : Nat) (hy : y < 2 ^ (8 * n)) :
    PaddedBigBytes y n = ReadBits y n := by
  unfold PaddedBigBytes
  split
  · rename_i h
    have hle : BitLen y ≤ 8 * n := bitLenAux_le y y (8 * n) hy
    have : BitLen y = 8 * n := by omega
    unfold BigBytes
    rw [this]
    congr 1
    omega
  · rfl

theorem U256Bytes_eq (x : Nat) : U256Bytes x = ReadBits (x % 2 ^ 256) 32 := by
  unfold U256Bytes
  rw [U256_eq_mod]
  exact PaddedBigBytes_eq _ 32 (Nat.mod_lt _ (by positivity))

theorem ReadBits_eq_map (n : Nat) :
    ∀ x, ReadBits x n = (List.range n).map (fun i => x / 256 ^ (n - 1 - i) % 256) := by
  induction n with
  | zero => intro x; rfl
  | succ n ih =>
    intro x
    rw [ReadBits, ih, List.range_succ, List.map_append]
    congr 1
    · apply List.map_congr_left
      intro i hi
      rw [List.mem_range] at hi
      rw [Nat.div_div_eq_div_mul, ← pow_succ']
      congr 3
      omega
    · simp

theorem U256Bytes_eq_slotUint (x : Nat) : U256Bytes x = slotUint (x % 2 ^ 256) := by
  rw [U256Bytes_eq, ReadBits_eq_map]
  rfl

theorem slotUint_length (x : Nat) : (slotUint x).length = 32 := by
  simp [slotUint]

theorem LeftPadBytes_address (a : Address) : LeftPadBytes a.bytes 32 = slotAddress a := by
  simp [LeftPadBytes, slotAddress, a.size_eq]

theorem slotAddress_length (a : Address) : (slotAddress a).length = 32 := by
  simp [slotAddress, a.size_eq]

theorem RightPadBytes_hash (h : Hash) : RightPadBytes h.bytes 32 = h.bytes := by
  simp [RightPadBytes, h.size_eq]

theorem pack_address (a : Address) :
    AbiType.AddressTy.pack (.address a) = .ok (LeftPadBytes a.bytes 32) := rfl

theorem pack_uint256 (x : Nat) : (AbiType.UintTy 256).pack (.bigInt x) = .ok (U256Bytes x) := rfl

theorem pack_uint48 (x : Nat) : (AbiType.UintTy 48).pack (.bigInt x) = .ok (U256Bytes x) := rfl

theorem pack_bytes32 (h : Hash) :
    (AbiType.FixedBytesTy 32).pack (.hash h) = .ok (RightPadBytes h.bytes 32) := by
  simp [AbiType.pack, typeCheck, AbiType.kind, Value.kind, Value.arrayBytes, h.size_eq,
    packElement]

/-- The bytes go-ethereum packs for `PaymasterHash`: no input makes it fail, and
every integer slot holds the value modulo `2 ^ 256`. -/
theorem Pack_paymasterHash (K : List Nat → Hash) (op : UserOperation) (paymaster : Address)
    (chainID validUntil validAfter : Nat) :
    Arguments.Pack paymasterHashArgs
        (paymasterHashValues K op paymaster chainID validUntil validAfter)
      = .ok (canonicalEncoding K op.reduced paymaster (chainID % 2 ^ 256)
          (validUntil % 2 ^ 256) (validAfter % 2 ^ 256)) := by
  simp only [Arguments.Pack, paymasterHashArgs, paymasterHashValues, List.length_cons,
    List.length_nil, ne_eq, not_true_eq_false, ite_false, packLoop, pack_address, pack_uint256,
    pack_uint48, pack_bytes32, List.nil_append, canonicalEncoding, UserOperation.reduced,
    U256Bytes_eq_slotUint, LeftPadBytes_address, RightPadBytes_hash]

theorem PaymasterHash_eq (K : List Nat → Hash) (op : UserOperation) (paymaster : Address)
    (chainID validUntil validAfter : Nat) :
    PaymasterHash K Arguments.Pack op paymaster chainID validUntil validAfter
      = .ok (K (canonicalEncoding K op.reduced paymaster (chainID % 2 ^ 256)
          (validUntil % 2 ^ 256) (validAfter % 2 ^ 256))) := by
  simp only [PaymasterHash, Pack_paymasterHash]

theorem canonicalEncoding_length (K : List Nat → Hash) (op : UserOperation)
    (paymaster : Address) (chainID validUntil validAfter : Nat) :
    (canonicalEncoding K op paymaster chainID validUntil validAfter).length = 416 := by
  simp only [canonicalEncoding, List.length_append, slotUint_length, slotAddress_length,
    Hash.size_eq]

/-! ## Signing: lemmas -/

theorem BytesToHash_bytes (h : Hash) : BytesToHash h.bytes = h := by
  cases h with
  | mk bytes size_eq => simp [BytesToHash, size_eq]

theorem asciiBytes_prefix :
    asciiBytes "\x19Ethereum Signed Message:\n" ++ asciiBytes (Nat.repr 32)
      = signedMessagePrefix := by
  decide

theorem TextHash_hash (K : List Nat → Hash) (d : Hash) :
    BytesToHash (TextHash K d.bytes) = K (signedMessagePrefix ++ d.bytes) := by
  simp only [TextHash, d.size_eq, asciiBytes_prefix, BytesToHash_bytes]

theorem PaymasterSign_ok {σ : Type} (K : List Nat → Hash)
    (pack : List Argument → List Value → Except Error (List Nat))
    (op : UserOperation) (paymaster : Address) (chainID validUntil validAfter : Nat)
    (signer : Signer σ) (s : σ) (d : Hash)
    (h : PaymasterHash K pack op paymaster chainID validUntil validAfter = .ok d) :
    PaymasterSign K pack op paymaster chainID validUntil validAfter signer s
      = signer.SignHash s (K (signedMessagePrefix ++ d.bytes)) := by
  simp only [PaymasterSign, h, TextHash_hash]

theorem PaymasterSign_error {σ : Type} (K : List Nat → Hash)
    (pack : List Argument → List Value → Except Error (List Nat))
    (op : UserOperation) (paymaster : Address) (chainID validUntil validAfter : Nat)
    (signer : Signer σ) (s : σ) (err : Error)
    (h : PaymasterHash K pack op paymaster chainID validUntil validAfter = .error err) :
    PaymasterSign K pack op paymaster chainID validUntil validAfter signer s
      = (some ([], some err), s) := by
  simp only [PaymasterSign, h]

theorem SignHash_ok (Sign : List Nat → EcdsaPrivateKey → List Nat × Option Error)
    (s : PrivateKeySigner) (h : Hash) (rs : List Nat) (v : Nat) (hrs : rs.length = 64)
    (hSign : Sign h.bytes s.PrivateKey = (rs ++ [v], none)) :
    s.SignHash Sign h = some (rs ++ [(v + 27) % 256], none) := by
  have hlen : 64 < (rs ++ [v]).length := by simp [hrs]
  have hget : (rs ++ [v]).getD 64 0 = v := by
    rw [List.getD_eq_getElem?_getD, List.getElem?_append_right (by omega)]
    simp [hrs]
  have hset : (rs ++ [v]).set 64 ((v + 27) % 256) = rs ++ [(v + 27) % 256] := by
    rw [List.set_append_right _ _ (by omega)]
    simp [hrs]
  simp only [PrivateKeySigner.SignHash, hSign, hlen, if_true, hget, hset]

theorem SignHash_error (Sign : List Nat → EcdsaPrivateKey → List Nat × Option Error)
    (s : PrivateKeySigner) (h : Hash) (sig : List Nat) (err : Error)
    (hSign : Sign h.bytes s.PrivateKey = (sig, some err)) :
    s.SignHash Sign h = some (sig, some err) := by
  simp only [PrivateKeySigner.SignHash, hSign]

theorem toySign_shape (digest : List Nat) (prv : EcdsaPrivateKey) :
    (∃ err, toySign digest prv = ([], some err))
      ∨ (∃ rs v, rs.length = 64 ∧ (v = 0 ∨ v = 1) ∧ toySign digest prv = (rs ++ [v], none)) := by
  unfold toySign
  by_cases hlen : digest.length ≠ 32
  · exact Or.inl ⟨_, by rw [if_pos hlen]⟩
  · by_cases hD : prv.D = 0
    · exact Or.inl ⟨_, by rw [if_neg hlen, if_pos hD]⟩
    · refine Or.inr ⟨digest ++ ReadBits prv.D 32, (digest.sum + prv.D) % 2, ?_, ?_, ?_⟩
      · rw [List.length_append, ReadBits_length]; omega
      · omega
      · rw [if_neg hlen, if_neg hD]

theorem SetBytes_append_singleton (l : List Nat) (b : Nat) :
    SetBytes (l ++ [b]) = SetBytes l * 256 + b := by
  simp [SetBytes, List.foldl_append]

theorem SetBytes_ReadBits (n : Nat) : ∀ x, SetBytes (ReadBits x n) = x % 256 ^ n := by
  induction n with
  | zero => intro x; simp [ReadBits, SetBytes, Nat.mod_one]
  | succ n ih =>
    intro x
    rw [ReadBits, SetBytes_append_singleton, ih, pow_succ', Nat.mod_mul]
    ring

theorem slotUint_eq_ReadBits (x : Nat) : slotUint x = ReadBits x 32 := by
  rw [ReadBits_eq_map]
  rfl

theorem slotUint_inj (x y : Nat) (hx : x < 2 ^ 256) (hy : y < 2 ^ 256)
    (h : slotUint x = slotUint y) : x = y := by
  have h' := congrArg SetBytes h
  rw [slotUint_eq_ReadBits, slotUint_eq_ReadBits, SetBytes_ReadBits, SetBytes_ReadBits] at h'
  have e : (256 : Nat) ^ 32 = 2 ^ 256 := by norm_num
  rw [e, Nat.mod_eq_of_lt hx, Nat.mod_eq_of_lt hy] at h'
  exact h'

theorem slotAddress_inj (a b : Address) (h : slotAddress a = slotAddress b) : a = b := by
  cases a with
  | mk ab ha =>
    cases b with
    | mk bb hb =>
      have : ab = bb := List.append_cancel_left h
      subst this
      rfl

theorem Hash_bytes_inj (a b : Hash) (h : a.bytes = b.bytes) : a = b := by
  cases a with
  | mk ab ha =>
    cases b with
    | mk bb hb =>
      simp only at h
      subst h
      rfl

theorem slotOfValue_length (K : List Nat → Hash) (v : FieldValue) :
    (slotOfValue K v).length = 32 := by
  cases v with
  | address a => exact slotAddress_length a
  | uint x => exact slotUint_length _
  | bytes b => exact (K b).size_eq

theorem concatSlots_inj (s t : Field → List Nat) (l : List Field)
    (hlen : ∀ f, (s f).length = (t f).length)
    (h : concatSlots s l = concatSlots t l) : ∀ f ∈ l, s f = t f := by
  induction l with
  | nil => intro f hf; simp at hf
  | cons g gs ih =>
    simp only [concatSlots] at h
    have := List.append_inj h (hlen g)
    intro f hf
    rcases List.mem_cons.mp hf with rfl | hf
    · exact this.1
    · exact ih this.2 f hf

theorem packed_eq_concatSlots (K : List Nat → Hash) (i : HashInput) :
    i.packed K = .ok (concatSlots (fun f => slotOfValue K (i.get f)) Field.all) := by
  simp only [HashInput.packed, Pack_paymasterHash, canonicalEncoding, UserOperation.reduced,
    Field.all, concatSlots, HashInput.get, slotOfValue, List.append_assoc, List.append_nil]

theorem hash_eq_packed (K : List Nat → Hash) (i : HashInput) :
    i.hash K = .ok (K (concatSlots (fun f => slotOfValue K (i.get f)) Field.all)) := by
  have h := packed_eq_concatSlots K i
  simp only [HashInput.packed] at h
  simp only [HashInput.hash, PaymasterHash, h]

theorem Field.mem_all (f : Field) : f ∈ Field.all := by
  cases f <;> simp [Field.all]

theorem get_swap_left (i : HashInput) (f g : Field) (hty : f.type = g.type) :
    (i.swap f g).get f = i.get g := by
  cases f <;> cases g <;> first | rfl | (exact absurd hty (by decide))

/-- Two in-range values of one declared type with the same slot are equal, unless
they are different byte strings on which the hash collides. -/
theorem slotOfValue_inj (K : List Nat → Hash) (t : FieldType) (v w : FieldValue)
    (hv : v.inRange t) (hw : w.inRange t) (h : slotOfValue K v = slotOfValue K w) :
    v = w ∨ (∃ b c, v = .bytes b ∧ w = .bytes c ∧ CollidesOn K b c) := by
  cases v with
  | address a =>
    cases w with
    | address b => exact Or.inl (congrArg _ (slotAddress_inj a b h))
    | uint y => cases t <;> simp [FieldValue.inRange] at hv hw
    | bytes c => cases t <;> simp [FieldValue.inRange] at hv hw
  | uint x =>
    cases w with
    | address b => cases t <;> simp [FieldValue.inRange] at hv hw
    | uint y =>
      have hx : x < 2 ^ 256 := by
        cases t <;> simp [FieldValue.inRange] at hv <;> omega
      have hy : y < 2 ^ 256 := by
        cases t <;> simp [FieldValue.inRange] at hw <;> omega
      simp only [slotOfValue, Nat.mod_eq_of_lt hx, Nat.mod_eq_of_lt hy] at h
      exact Or.inl (congrArg _ (slotUint_inj x y hx hy h))
    | bytes c => cases t <;> simp [FieldValue.inRange] at hv hw
  | bytes b =>
    cases w with
    | address a => cases t <;> simp [FieldValue.inRange] at hv hw
    | uint y => cases t <;> simp [FieldValue.inRange] at hv hw
    | bytes c =>
      by_cases hbc : b = c
      · exact Or.inl (congrArg _ hbc)
      · exact Or.inr ⟨b, c, rfl, rfl, hbc, Hash_bytes_inj _ _ h⟩

theorem inRange_not_bytes (v : FieldValue) (t : FieldType) (hv : v.inRange t)
    (ht : t ≠ .bytes) : ∀ b, v ≠ .bytes b := by
  intro b hb
  subst hb
  cases t <;> simp [FieldValue.inRange] at hv ht

/-- When exchanging two same-typed, in-range, different values leaves the packed
bytes as they were, the two values are byte strings on which the hash collides. -/
theorem swap_packed_eq (K : List Nat → Hash) (i : HashInput) (f g : Field)
    (hty : f.type = g.type) (hf : (i.get f).inRange f.type) (hg : (i.get g).inRange g.type)
    (hne : i.get f ≠ i.get g)
    (h : concatSlots (fun f' => slotOfValue K ((i.swap f g).get f')) Field.all
      = concatSlots (fun f' => slotOfValue K (i.get f')) Field.all) :
    ∃ b c, i.get f = .bytes b ∧ i.get g = .bytes c ∧ CollidesOn K b c := by
  have hslot := concatSlots_inj _ _ Field.all
    (fun f' => by rw [slotOfValue_length, slotOfValue_length]) h f (Field.mem_all f)
  simp only [get_swap_left i f g hty] at hslot
  rcases slotOfValue_inj K f.type (i.get g) (i.get f) (hty ▸ hg) hf hslot with
    heq | ⟨b, c, hb, hc, hbc, hK⟩
  · exact absurd heq.symm hne
  · exact ⟨c, b, hc, hb, fun e => hbc e.symm, hK.symm⟩

/-! ## Injectivity of the encoding and the end-to-end scenario: lemmas -/

theorem scenario_canonicalEncoding (K : List Nat → Hash)
    (paymasterAndData signature : List Nat) :
    canonicalEncoding K (scenarioOp paymasterAndData signature).reduced addr2 (1 % 2 ^ 256)
        (0 % 2 ^ 256) (0 % 2 ^ 256) = scenarioEncoding K := by
  have h0 : slotUint (0 % 2 ^ 256) = List.replicate 32 0 := by decide
  have h1 : slotUint (1 % 2 ^ 256) = List.replicate 31 0 ++ [1] := by decide
  have ha1 : slotAddress addr1 = List.replicate 31 0 ++ [1] := by decide
  have ha2 : slotAddress addr2 = List.replicate 31 0 ++ [2] := by decide
  simp only [canonicalEncoding, UserOperation.reduced, scenarioOp, scenarioEncoding, h0, h1,
    ha1, ha2]

theorem scenarioEncoding_length (K : List Nat → Hash) : (scenarioEncoding K).length = 416 := by
  simp only [scenarioEncoding, List.length_append, List.length_replicate, List.length_cons,
    List.length_nil, Hash.size_eq]

/-! ## Claims -/

/-- C1: when the seven uint256 inputs are below `2 ^ 256` and `validUntil`,
`validAfter` are below `2 ^ 48`, `PaymasterHash` returns no error and its digest is
the Keccak256 of exactly 416 bytes: the thirteen 32-byte slots (addresses
left-padded with twelve zero bytes, integers big-endian and zero-padded, the byte
fields replaced by their Keccak256) in the declared order, whatever the lengths
of `initCode` and `callData`. -/
theorem PaymasterHash_in_range (K : List Nat → Hash) (op : UserOperation)
    (paymaster : Address) (chainID validUntil validAfter : Nat)
    (hNonce : op.Nonce < 2 ^ 256) (hCall : op.CallGasLimit < 2 ^ 256)
    (hVerif : op.VerificationGasLimit < 2 ^ 256) (hPre : op.PreVerificationGas < 2 ^ 256)
    (hFee : op.MaxFeePerGas < 2 ^ 256) (hPrio : op.MaxPriorityFeePerGas < 2 ^ 256)
    (hChain : chainID < 2 ^ 256) (hUntil : validUntil < 2 ^ 48) (hAfter : validAfter < 2 ^ 48) :
    PaymasterHash K Arguments.Pack op paymaster chainID validUntil validAfter
        = .ok (K (canonicalEncoding K op paymaster chainID validUntil validAfter))
      ∧ (canonicalEncoding K op paymaster chainID validUntil validAfter).length = 416 := by
  refine ⟨?_, canonicalEncoding_length K op paymaster chainID validUntil validAfter⟩
  have hU : validUntil < 2 ^ 256 := lt_trans hUntil (by norm_num)
  have hA : validAfter < 2 ^ 256 := lt_trans hAfter (by norm_num)
  rw [PaymasterHash_eq]
  simp only [UserOperation.reduced, Nat.mod_eq_of_lt hNonce, Nat.mod_eq_of_lt hCall,
    Nat.mod_eq_of_lt hVerif, Nat.mod_eq_of_lt hPre, Nat.mod_eq_of_lt hFee,
    Nat.mod_eq_of_lt hPrio, Nat.mod_eq_of_lt hChain, Nat.mod_eq_of_lt hU, Nat.mod_eq_of_lt hA]

/-- C1, at a concrete input: an operation with 300 bytes of `initCode` and one
byte of `callData`. -/
theorem PaymasterHash_in_range_witness :
    PaymasterHash toyK Arguments.Pack
        { sampleOp with InitCode := List.replicate 300 7, CallData := [1], Nonce := 5 }
        addr2 1 (2 ^ 48 - 1) 3
        = .ok (toyK (canonicalEncoding toyK
          { sampleOp with InitCode := List.replicate 300 7, CallData := [1], Nonce := 5 }
          addr2 1 (2 ^ 48 - 1) 3))
      ∧ (canonicalEncoding toyK
          { sampleOp with InitCode := List.replicate 300 7, CallData := [1], Nonce := 5 }
          addr2 1 (2 ^ 48 - 1) 3).length = 416 :=
  PaymasterHash_in_range toyK _ addr2 1 (2 ^ 48 - 1) 3 (by decide) (by decide) (by decide)
    (by decide) (by decide) (by decide) (by decide) (by decide) (by decide)

/-- C2, refuted at `chainId = 2 ^ 256` and at `nonce = 2 ^ 256`: `PaymasterHash`
returns no error, and the digest is the one of the same call with the value `0`
in that field. -/
theorem PaymasterHash_two_pow_256_not_rejected :
    PaymasterHash toyK Arguments.Pack sampleOp addr2 (2 ^ 256) 0 0
        = .ok (toyK (canonicalEncoding toyK sampleOp addr2 0 0 0))
      ∧ PaymasterHash toyK Arguments.Pack sampleOp addr2 (2 ^ 256) 0 0
        = PaymasterHash toyK Arguments.Pack sampleOp addr2 0 0 0
      ∧ PaymasterHash toyK Arguments.Pack { sampleOp with Nonce := 2 ^ 256 } addr2 1 0 0
        = .ok (toyK (canonicalEncoding toyK sampleOp addr2 1 0 0)) := by
  set_option maxRecDepth 100000 in decide

/-- C2, amended: `PaymasterHash` over go-ethereum's packer returns no error whatever
the values of the integer inputs; each integer slot holds the value reduced modulo
`2 ^ 256`, so `2 ^ 256` is encoded as `0`. -/
theorem PaymasterHash_reduces_mod_two_pow_256 (K : List Nat → Hash) (op : UserOperation)
    (paymaster : Address) (chainID validUntil validAfter : Nat) :
    PaymasterHash K Arguments.Pack op paymaster chainID validUntil validAfter
      = .ok (K (canonicalEncoding K op.reduced paymaster (chainID % 2 ^ 256)
          (validUntil % 2 ^ 256) (validAfter % 2 ^ 256))) :=
  PaymasterHash_eq K op paymaster chainID validUntil validAfter

/-- C3, refuted at `validUntil = 2 ^ 48`: `PaymasterHash` returns no error, and the
twelfth slot holds `2 ^ 48` itself. -/
theorem PaymasterHash_validUntil_two_pow_48 :
    PaymasterHash toyK Arguments.Pack sampleOp addr2 1 (2 ^ 48) 0
        = .ok (toyK (canonicalEncoding toyK sampleOp addr2 1 (2 ^ 48) 0))
      ∧ slotUint (2 ^ 48) = List.replicate 25 0 ++ [1, 0, 0, 0, 0, 0, 0] := by
  set_option maxRecDepth 100000 in decide

/-- C3, amended: when the seven uint256 inputs are below `2 ^ 256`, `PaymasterHash`
returns no error whatever `validUntil` and `validAfter` are; their slots hold the
values modulo `2 ^ 256`, hence the values themselves when these are below
`2 ^ 256`, 48 bits or not. -/
theorem PaymasterHash_validity_not_checked (K : List Nat → Hash) (op : UserOperation)
    (paymaster : Address) (chainID validUntil validAfter : Nat)
    (hNonce : op.Nonce < 2 ^ 256) (hCall : op.CallGasLimit < 2 ^ 256)
    (hVerif : op.VerificationGasLimit < 2 ^ 256) (hPre : op.PreVerificationGas < 2 ^ 256)
    (hFee : op.MaxFeePerGas < 2 ^ 256) (hPrio : op.MaxPriorityFeePerGas < 2 ^ 256)
    (hChain : chainID < 2 ^ 256) :
    PaymasterHash K Arguments.Pack op paymaster chainID validUntil validAfter
        = .ok (K (canonicalEncoding K op paymaster chainID (validUntil % 2 ^ 256)
            (validAfter % 2 ^ 256)))
      ∧ (validUntil < 2 ^ 256 → validAfter < 2 ^ 256 →
          PaymasterHash K Arguments.Pack op paymaster chainID validUntil validAfter
            = .ok (K (canonicalEncoding K op paymaster chainID validUntil validAfter))) := by
  have h : PaymasterHash K Arguments.Pack op paymaster chainID validUntil validAfter
      = .ok (K (canonicalEncoding K op paymaster chainID (validUntil % 2 ^ 256)
          (validAfter % 2 ^ 256))) := by
    rw [PaymasterHash_eq]
    simp only [UserOperation.reduced, Nat.mod_eq_of_lt hNonce, Nat.mod_eq_of_lt hCall,
      Nat.mod_eq_of_lt hVerif, Nat.mod_eq_of_lt hPre, Nat.mod_eq_of_lt hFee,
      Nat.mod_eq_of_lt hPrio, Nat.mod_eq_of_lt hChain]
  refine ⟨h, fun hU hA => ?_⟩
  rw [h, Nat.mod_eq_of_lt hU, Nat.mod_eq_of_lt hA]

/-- C3, amended, at `validUntil = 2 ^ 48` and `validAfter = 2 ^ 200`. -/
theorem PaymasterHash_validity_not_checked_witness :
    PaymasterHash toyK Arguments.Pack sampleOp addr2 1 (2 ^ 48) (2 ^ 200)
        = .ok (toyK (canonicalEncoding toyK sampleOp addr2 1 (2 ^ 48 % 2 ^ 256)
            (2 ^ 200 % 2 ^ 256)))
      ∧ (2 ^ 48 < 2 ^ 256 → 2 ^ 200 < 2 ^ 256 →
          PaymasterHash toyK Arguments.Pack sampleOp addr2 1 (2 ^ 48) (2 ^ 200)
            = .ok (toyK (canonicalEncoding toyK sampleOp addr2 1 (2 ^ 48) (2 ^ 200)))) :=
  PaymasterHash_validity_not_checked toyK sampleOp addr2 1 (2 ^ 48) (2 ^ 200) (by decide)
    (by decide) (by decide) (by decide) (by decide) (by decide) (by decide)

/-- C4: when `PaymasterHash` succeeds with inner digest `d`, `PaymasterSign` is the
call of the signer on Keccak256 of the 28-byte prefix
`"\x19Ethereum Signed Message:\n32"` followed by the 32 bytes of `d`; a signer that
records what it is given has seen this outer digest and nothing else. -/
theorem PaymasterSign_signs_outer_digest {σ : Type} (K : List Nat → Hash)
    (pack : List Argument → List Value → Except Error (List Nat))
    (op : UserOperation) (paymaster : Address) (chainID validUntil validAfter : Nat)
    (signer : Signer σ) (s : σ) (d : Hash)
    (h : PaymasterHash K pack op paymaster chainID validUntil validAfter = .ok d) :
    PaymasterSign K pack op paymaster chainID validUntil validAfter signer s
        = signer.SignHash s (K (signedMessagePrefix ++ d.bytes))
      ∧ (PaymasterSign K pack op paymaster chainID validUntil validAfter recorder []).2
        = [K (signedMessagePrefix ++ d.bytes)]
      ∧ signedMessagePrefix.length = 28
      ∧ (signedMessagePrefix ++ d.bytes).length = 60 := by
  refine ⟨PaymasterSign_ok K pack op paymaster chainID validUntil validAfter signer s d h,
    ?_, rfl, ?_⟩
  · rw [PaymasterSign_ok K pack op paymaster chainID validUntil validAfter recorder [] d h]
    rfl
  · simp [signedMessagePrefix, d.size_eq]

/-- C4, at the sample operation with go-ethereum's packer. -/
theorem PaymasterSign_signs_outer_digest_witness :
    PaymasterSign toyK Arguments.Pack sampleOp addr2 1 0 0 recorder []
        = recorder.SignHash [] (toyK (signedMessagePrefix
            ++ (toyK (canonicalEncoding toyK sampleOp addr2 1 0 0)).bytes))
      ∧ (PaymasterSign toyK Arguments.Pack sampleOp addr2 1 0 0 recorder []).2
        = [toyK (signedMessagePrefix
            ++ (toyK (canonicalEncoding toyK sampleOp addr2 1 0 0)).bytes)]
      ∧ signedMessagePrefix.length = 28
      ∧ (signedMessagePrefix
            ++ (toyK (canonicalEncoding toyK sampleOp addr2 1 0 0)).bytes).length = 60 :=
  PaymasterSign_signs_outer_digest toyK Arguments.Pack sampleOp addr2 1 0 0 recorder []
    (toyK (canonicalEncoding toyK sampleOp addr2 1 0 0))
    (by set_option maxRecDepth 100000 in decide)

/-- C5: when `crypto.Sign` succeeds on the digest and the key with 65 bytes `r‖s‖v`,
`v` in `{0, 1}`, `SignHash` returns no error and exactly 65 bytes: the 64 bytes
`r‖s` unchanged, then `v + 27`, which is 27 or 28. -/
theorem SignHash_adds_27 (Sign : List Nat → EcdsaPrivateKey → List Nat × Option Error)
    (s : PrivateKeySigner) (h : Hash) (rs : List Nat) (v : Nat) (hrs : rs.length = 64)
    (hv : v = 0 ∨ v = 1) (hSign : Sign h.bytes s.PrivateKey = (rs ++ [v], none)) :
    s.SignHash Sign h = some (rs ++ [v + 27], none)
      ∧ (rs ++ [v + 27]).length = 65
      ∧ (rs ++ [v + 27]).take 64 = rs
      ∧ (v + 27 = 27 ∨ v + 27 = 28) := by
  have hmod : (v + 27) % 256 = v + 27 := by omega
  refine ⟨?_, by simp [hrs], by simp [hrs], by omega⟩
  rw [SignHash_ok Sign s h rs v hrs hSign, hmod]

/-- C5, at the sample key and the all-zero digest. -/
theorem SignHash_adds_27_witness :
    PrivateKeySigner.SignHash toySign ⟨sampleKey⟩ Hash.zero
        = some ((List.replicate 32 0 ++ ReadBits 1 32) ++ [1 + 27], none)
      ∧ ((List.replicate 32 0 ++ ReadBits 1 32) ++ [1 + 27]).length = 65
      ∧ ((List.replicate 32 0 ++ ReadBits 1 32) ++ [1 + 27]).take 64
        = List.replicate 32 0 ++ ReadBits 1 32
      ∧ (1 + 27 = 27 ∨ 1 + 27 = 28) :=
  SignHash_adds_27 toySign ⟨sampleKey⟩ Hash.zero (List.replicate 32 0 ++ ReadBits 1 32) 1
    (by decide) (by decide) (by decide)

/-- C6: for every signer and every state of it: when `PaymasterHash` fails,
`PaymasterSign` returns that error with no signature bytes, the signer's state is
untouched and its call counter unchanged; otherwise `PaymasterSign` is one call of
the signer on the outer digest: it returns the signer's pair as it is, leaves the
signer in the state after that call, and the call counter goes up by one. -/
theorem PaymasterSign_propagates {σ : Type} (K : List Nat → Hash)
    (pack : List Argument → List Value → Except Error (List Nat))
    (op : UserOperation) (paymaster : Address) (chainID validUntil validAfter : Nat)
    (signer : Signer σ) (s : σ) (n : Nat) :
    (∀ err, PaymasterHash K pack op paymaster chainID validUntil validAfter = .error err →
        PaymasterSign K pack op paymaster chainID validUntil validAfter signer s
          = (some ([], some err), s)
        ∧ (PaymasterSign K pack op paymaster chainID validUntil validAfter
            signer.counting (s, n)).2.2 = n)
      ∧ (∀ d, PaymasterHash K pack op paymaster chainID validUntil validAfter = .ok d →
        PaymasterSign K pack op paymaster chainID validUntil validAfter signer s
          = signer.SignHash s (BytesToHash (TextHash K d.bytes))
        ∧ (PaymasterSign K pack op paymaster chainID validUntil validAfter
            signer.counting (s, n)).2.2 = n + 1) := by
  constructor
  · intro err h
    refine ⟨PaymasterSign_error K pack op paymaster chainID validUntil validAfter signer s err h,
      ?_⟩
    rw [PaymasterSign_error K pack op paymaster chainID validUntil validAfter _ _ err h]
  · intro d h
    rw [TextHash_hash]
    refine ⟨PaymasterSign_ok K pack op paymaster chainID validUntil validAfter signer s d h, ?_⟩
    rw [PaymasterSign_ok K pack op paymaster chainID validUntil validAfter _ _ d h]
    rfl

/-- C6, on both paths: a packer that fails, and go-ethereum's packer. -/
theorem PaymasterSign_propagates_witness :
    (PaymasterSign toyK failingPack sampleOp addr2 1 0 0 recorder []
          = (some ([], some "abi: cannot pack"), [])
        ∧ (PaymasterSign toyK failingPack sampleOp addr2 1 0 0 recorder.counting ([], 0)).2.2
          = 0)
      ∧ (PaymasterSign toyK Arguments.Pack sampleOp addr2 1 0 0 recorder []
          = recorder.SignHash [] (BytesToHash (TextHash toyK
              (toyK (canonicalEncoding toyK sampleOp addr2 1 0 0)).bytes))
        ∧ (PaymasterSign toyK Arguments.Pack sampleOp addr2 1 0 0 recorder.counting
            ([], 0)).2.2 = 0 + 1) :=
  ⟨(PaymasterSign_propagates toyK failingPack sampleOp addr2 1 0 0 recorder [] 0).1
      "abi: cannot pack" rfl,
    (PaymasterSign_propagates toyK Arguments.Pack sampleOp addr2 1 0 0 recorder [] 0).2
      (toyK (canonicalEncoding toyK sampleOp addr2 1 0 0))
      (by set_option maxRecDepth 100000 in decide)⟩

/-- C7: with a `PrivateKeySigner` whose primitive returns either an error with no
bytes or 65 bytes `r‖s‖v` with `v` in `{0, 1}`, `PaymasterSign` returns either an
error with no signature bytes, or no error with exactly 65 bytes `r‖s‖v`, `v` being
27 or 28; it neither panics nor returns anything else. -/
theorem PaymasterSign_all_or_nothing (K : List Nat → Hash)
    (pack : List Argument → List Value → Except Error (List Nat))
    (Sign : List Nat → EcdsaPrivateKey → List Nat × Option Error)
    (key : PrivateKeySigner) (op : UserOperation) (paymaster : Address)
    (chainID validUntil validAfter : Nat)
    (hSign : ∀ digest prv, (∃ err, Sign digest prv = ([], some err))
      ∨ (∃ rs v, rs.length = 64 ∧ (v = 0 ∨ v = 1) ∧ Sign digest prv = (rs ++ [v], none))) :
    (∃ err, PaymasterSign K pack op paymaster chainID validUntil validAfter
          (key.toSigner Sign) () = (some ([], some err), ()))
      ∨ (∃ rs v, rs.length = 64 ∧ (v = 27 ∨ v = 28)
          ∧ PaymasterSign K pack op paymaster chainID validUntil validAfter
              (key.toSigner Sign) () = (some (rs ++ [v], none), ())) := by
  cases hHash : PaymasterHash K pack op paymaster chainID validUntil validAfter with
  | error err =>
    exact Or.inl ⟨err, PaymasterSign_error K pack op paymaster chainID validUntil validAfter
      _ _ err hHash⟩
  | ok d =>
    rw [PaymasterSign_ok K pack op paymaster chainID validUntil validAfter _ _ d hHash]
    rcases hSign (K (signedMessagePrefix ++ d.bytes)).bytes key.PrivateKey with
      ⟨err, he⟩ | ⟨rs, v, hrs, hv, hs⟩
    · refine Or.inl ⟨err, ?_⟩
      simp only [PrivateKeySigner.toSigner, SignHash_error Sign key _ [] err he]
    · refine Or.inr ⟨rs, v + 27, hrs, by omega, ?_⟩
      have hmod : (v + 27) % 256 = v + 27 := by omega
      simp only [PrivateKeySigner.toSigner, SignHash_ok Sign key _ rs v hrs hs, hmod]

/-- C7, at the sample operation, go-ethereum's packer and the sample key. -/
theorem PaymasterSign_all_or_nothing_witness :
    (∃ err, PaymasterSign toyK Arguments.Pack sampleOp addr2 1 0 0
          (PrivateKeySigner.toSigner toySign ⟨sampleKey⟩) () = (some ([], some err), ()))
      ∨ (∃ rs v, rs.length = 64 ∧ (v = 27 ∨ v = 28)
          ∧ PaymasterSign toyK Arguments.Pack sampleOp addr2 1 0 0
              (PrivateKeySigner.toSigner toySign ⟨sampleKey⟩) ()
            = (some (rs ++ [v], none), ())) :=
  PaymasterSign_all_or_nothing toyK Arguments.Pack toySign ⟨sampleKey⟩ sampleOp addr2 1 0 0
    toySign_shape

/-- C9: two operations that agree on sender, nonce, initCode, callData and the five
gas and fee fields give, with the same paymaster, chainId, validUntil and
validAfter, the same result of `PaymasterHash`, the same result of `PaymasterSign`
with every signer, and the same digest handed to the signer, whatever their
`paymasterAndData` and `signature` fields are. -/
theorem digests_depend_on_encoded_inputs_only {σ : Type} (K : List Nat → Hash)
    (pack : List Argument → List Value → Except Error (List Nat))
    (op op' : UserOperation) (paymaster : Address) (chainID validUntil validAfter : Nat)
    (signer : Signer σ) (s : σ)
    (hSender : op.Sender = op'.Sender) (hNonce : op.Nonce = op'.Nonce)
    (hInit : op.InitCode = op'.InitCode) (hData : op.CallData = op'.CallData)
    (hCall : op.CallGasLimit = op'.CallGasLimit)
    (hVerif : op.VerificationGasLimit = op'.VerificationGasLimit)
    (hPre : op.PreVerificationGas = op'.PreVerificationGas)
    (hFee : op.MaxFeePerGas = op'.MaxFeePerGas)
    (hPrio : op.MaxPriorityFeePerGas = op'.MaxPriorityFeePerGas) :
    PaymasterHash K pack op paymaster chainID validUntil validAfter
        = PaymasterHash K pack op' paymaster chainID validUntil validAfter
      ∧ PaymasterSign K pack op paymaster chainID validUntil validAfter signer s
        = PaymasterSign K pack op' paymaster chainID validUntil validAfter signer s
      ∧ (PaymasterSign K pack op paymaster chainID validUntil validAfter recorder []).2
        = (PaymasterSign K pack op' paymaster chainID validUntil validAfter recorder []).2 := by
  have hv : paymasterHashValues K op paymaster chainID validUntil validAfter
      = paymasterHashValues K op' paymaster chainID validUntil validAfter := by
    simp only [paymasterHashValues, hSender, hNonce, hInit, hData, hCall, hVerif, hPre, hFee,
      hPrio]
  have hh : PaymasterHash K pack op paymaster chainID validUntil validAfter
      = PaymasterHash K pack op' paymaster chainID validUntil validAfter := by
    simp only [PaymasterHash, hv]
  refine ⟨hh, ?_, ?_⟩
  · simp only [PaymasterSign, hh]
  · simp only [PaymasterSign, hh]

/-- C9, at two operations that differ in `paymasterAndData` and `signature`. -/
theorem digests_depend_on_encoded_inputs_only_witness :
    PaymasterHash toyK Arguments.Pack sampleOp addr2 1 0 0
        = PaymasterHash toyK Arguments.Pack
            { sampleOp with PaymasterAndData := [1, 2, 3], Signature := [9] } addr2 1 0 0
      ∧ PaymasterSign toyK Arguments.Pack sampleOp addr2 1 0 0
            (PrivateKeySigner.toSigner toySign ⟨sampleKey⟩) ()
        = PaymasterSign toyK Arguments.Pack
            { sampleOp with PaymasterAndData := [1, 2, 3], Signature := [9] } addr2 1 0 0
            (PrivateKeySigner.toSigner toySign ⟨sampleKey⟩) ()
      ∧ (PaymasterSign toyK Arguments.Pack sampleOp addr2 1 0 0 recorder []).2
        = (PaymasterSign toyK Arguments.Pack
            { sampleOp with PaymasterAndData := [1, 2, 3], Signature := [9] } addr2 1 0 0
            recorder []).2 :=
  digests_depend_on_encoded_inputs_only toyK Arguments.Pack sampleOp
    { sampleOp with PaymasterAndData := [1, 2, 3], Signature := [9] } addr2 1 0 0
    (PrivateKeySigner.toSigner toySign ⟨sampleKey⟩) () rfl rfl rfl rfl rfl rfl rfl rfl rfl

/-- C8: exchanging the values of two encoded fields of one declared type, both in
range and different, changes the inner digest, unless Keccak256 collides on the
two encodings or on the two exchanged byte strings; when the fields are not byte
strings, the packed bytes themselves differ. -/
theorem swap_changes_digest (K : List Nat → Hash) (i : HashInput) (f g : Field)
    (hty : f.type = g.type) (hf : (i.get f).inRange f.type) (hg : (i.get g).inRange g.type)
    (hne : i.get f ≠ i.get g) :
    ((i.swap f g).hash K ≠ i.hash K
        ∨ (∃ e e', (i.swap f g).packed K = .ok e' ∧ i.packed K = .ok e ∧ CollidesOn K e' e)
        ∨ (∃ b c, i.get f = .bytes b ∧ i.get g = .bytes c ∧ CollidesOn K b c))
      ∧ (f.type ≠ .bytes → (i.swap f g).packed K ≠ i.packed K) := by
  constructor
  · by_cases hh : (i.swap f g).hash K = i.hash K
    · right
      by_cases he : concatSlots (fun f' => slotOfValue K ((i.swap f g).get f')) Field.all
          = concatSlots (fun f' => slotOfValue K (i.get f')) Field.all
      · exact Or.inr (swap_packed_eq K i f g hty hf hg hne he)
      · refine Or.inl ⟨_, _, packed_eq_concatSlots K (i.swap f g), packed_eq_concatSlots K i,
          he, ?_⟩
        rw [hash_eq_packed, hash_eq_packed] at hh
        exact Except.ok.inj hh
    · exact Or.inl hh
  · intro hnb hp
    rw [packed_eq_concatSlots, packed_eq_concatSlots] at hp
    obtain ⟨b, c, hb, _, _⟩ := swap_packed_eq K i f g hty hf hg hne (Except.ok.inj hp)
    exact inRange_not_bytes (i.get f) f.type hf hnb b hb

/-- C8, at `maxFeePerGas = 1` and `maxPriorityFeePerGas = 2`. -/
theorem swap_changes_digest_witness :
    ((HashInput.swap ⟨{ sampleOp with MaxFeePerGas := 1, MaxPriorityFeePerGas := 2 }, addr2, 1, 0, 0⟩
            .maxFeePerGas .maxPriorityFeePerGas).hash toyK
          ≠ HashInput.hash toyK
              ⟨{ sampleOp with MaxFeePerGas := 1, MaxPriorityFeePerGas := 2 }, addr2, 1, 0, 0⟩
        ∨ (∃ e e',
            (HashInput.swap
                ⟨{ sampleOp with MaxFeePerGas := 1, MaxPriorityFeePerGas := 2 }, addr2, 1, 0, 0⟩
                .maxFeePerGas .maxPriorityFeePerGas).packed toyK = .ok e'
            ∧ HashInput.packed toyK
                ⟨{ sampleOp with MaxFeePerGas := 1, MaxPriorityFeePerGas := 2 }, addr2, 1, 0, 0⟩
              = .ok e
            ∧ CollidesOn toyK e' e)
        ∨ (∃ b c,
            HashInput.get
                ⟨{ sampleOp with MaxFeePerGas := 1, MaxPriorityFeePerGas := 2 }, addr2, 1, 0, 0⟩
                .maxFeePerGas = .bytes b
            ∧ HashInput.get
                ⟨{ sampleOp with MaxFeePerGas := 1, MaxPriorityFeePerGas := 2 }, addr2, 1, 0, 0⟩
                .maxPriorityFeePerGas = .bytes c
            ∧ CollidesOn toyK b c))
      ∧ (Field.maxFeePerGas.type ≠ .bytes →
          (HashInput.swap
              ⟨{ sampleOp with MaxFeePerGas := 1, MaxPriorityFeePerGas := 2 }, addr2, 1, 0, 0⟩
              .maxFeePerGas .maxPriorityFeePerGas).packed toyK
            ≠ HashInput.packed toyK
                ⟨{ sampleOp with MaxFeePerGas := 1, MaxPriorityFeePerGas := 2 }, addr2, 1, 0, 0⟩) :=
  swap_changes_digest toyK
    ⟨{ sampleOp with MaxFeePerGas := 1, MaxPriorityFeePerGas := 2 }, addr2, 1, 0, 0⟩
    .maxFeePerGas .maxPriorityFeePerGas rfl
    (by show (1 : Nat) < 2 ^ 256; decide) (by show (2 : Nat) < 2 ^ 256; decide) (by decide)

/-- C13: in the end-to-end scenario `PaymasterHash` succeeds with the Keccak256 of
416 bytes: slot 1 is 31 zero bytes then `0x01`, slots 3 and 4 are Keccak256 of the
empty byte string, slot 10 is 31 zero bytes then `0x01`, slot 11 is 31 zero bytes
then `0x02`, every other slot is zero; `PaymasterSign` hands the signer the
prefix-wrapped hash of that inner digest and nothing else. -/
theorem scenario_digests {σ : Type} (K : List Nat → Hash)
    (paymasterAndData signature : List Nat) (signer : Signer σ) (s : σ) :
    PaymasterHash K Arguments.Pack (scenarioOp paymasterAndData signature) addr2 1 0 0
        = .ok (K (scenarioEncoding K))
      ∧ (scenarioEncoding K).length = 416
      ∧ PaymasterSign K Arguments.Pack (scenarioOp paymasterAndData signature) addr2 1 0 0
          signer s
        = signer.SignHash s (K (signedMessagePrefix ++ (K (scenarioEncoding K)).bytes))
      ∧ (PaymasterSign K Arguments.Pack (scenarioOp paymasterAndData signature) addr2 1 0 0
          recorder []).2
        = [K (signedMessagePrefix ++ (K (scenarioEncoding K)).bytes)] := by
  have hh : PaymasterHash K Arguments.Pack (scenarioOp paymasterAndData signature) addr2 1 0 0
      = .ok (K (scenarioEncoding K)) := by
    rw [PaymasterHash_eq, scenario_canonicalEncoding]
  refine ⟨hh, scenarioEncoding_length K, PaymasterSign_ok K _ _ _ _ _ _ signer s _ hh, ?_⟩
  rw [PaymasterSign_ok K _ _ _ _ _ _ recorder [] _ hh]
  rfl

end Paymaster
